import Mathlib

/-!
Verification of the zec-dogs-nft payment/reservation service.

The development shallowly embeds the program's persistent state (the
`nfts`, `sessions` and `settings` tables of the SQLite database) and its
state-mutating operations, translated from the JavaScript sources:

* `create-payment-intent` transaction      (server variants, ENDPOINT 2)
* `markPaymentPending`                     (payment monitor, mempool scanner)
* `fulfillOrder`                           (payment monitor, block scanner)
* `cleanupExpiredSessions`                 (the periodic sweeper; current
  server variant: 10-minute pending expiry plus the 24-hour
  `payment_pending` recovery sweep)
* `check-payment-status` handler           (ENDPOINT 3, current variant)
* the multi-endpoint RPC pool (`selectBestApi` / `rpcCall`)
* the block-scanner cursor discipline of `monitorBlocks`

Database rows become Lean structures; SQL statements become list
operations; the `db.transaction` wrapper becomes the rollback-on-error
shape of each operation (a thrown error returns the pre-state).  The
`ORDER BY RANDOM()` row selection and the random 16-byte session id are
resolved by explicit parameters (`picked`, `sid`), quantified over all
values so the theorems cover every outcome of the randomness.  SQLite
REAL amounts are modelled as exact rationals; timestamps are seconds.
-/

namespace ZecDogs

/-- Status strings stored in `sessions.status`.  Sessions are born
`pending`; the expired ones are deleted rather than marked, so no row
ever carries an `expired` status. -/
inductive SessionStatus
  | pending
  | payment_pending
  | complete
  | failed
deriving DecidableEq

/-- One row of the `nfts` table (the inventory).  `session_id` is the
spec's `session_ref`: the uuid of the reserving or claiming session. -/
structure Nft where
  id : Nat
  cid : Nat
  claimed : Bool
  session_id : Option Nat
deriving DecidableEq

/-- One row of the `sessions` table.  `amount_due` is kept as an exact
rational (the source stores a SQLite REAL); `quantity` is rational
because the HTTP handler lets any JavaScript number in `[1,20]` through
(see the quantity-validation theorem). -/
structure Session where
  session_uuid : Nat
  amount_due : ℚ
  quantity : ℚ
  status : SessionStatus
  payment_txid : Option Nat
  assigned_cids : Option (List Nat)
  created_at : Nat
  updated_at : Nat
deriving DecidableEq

/-- The persistent store: the two data tables plus the
`sqlite_sequence` counter for `sessions` (the AUTOINCREMENT sequence
read by the unique-amount generator). -/
structure Store where
  nfts : List Nft
  sessions : List Session
  seq : Nat
deriving DecidableEq

def MAX_SUPPLY : Nat := 5000

/-- `SESSION_TIMEOUT_MINUTES = 10` in the current server variant
("Extended to 10 minutes (was 5)"). -/
def SESSION_TIMEOUT_MINUTES : Nat := 10

/-- `PRICE_PER_NFT = 0.005`. -/
def PRICE_PER_NFT : ℚ := 5 / 1000

/-- Number of unclaimed inventory rows referencing session `u`
(`SELECT COUNT(*) FROM nfts WHERE session_id = u AND claimed = 0`). -/
def unclaimedRefCount (nfts : List Nft) (u : Nat) : Nat :=
  nfts.countP fun n => decide (n.session_id = some u) && !n.claimed

/-- `SELECT COUNT(*) FROM nfts WHERE session_id = ?` — the
post-reservation verification count of the intent transaction. -/
def sessionRefCount (nfts : List Nft) (u : Nat) : Nat :=
  nfts.countP fun n => decide (n.session_id = some u)

/-- `SELECT COUNT(*) FROM nfts WHERE claimed = 0 AND session_id IS NULL
AND id <= MAX_SUPPLY` — available inventory. -/
def availableCount (st : Store) : Nat :=
  st.nfts.countP fun n =>
    !n.claimed && decide (n.session_id = none) && decide (n.id ≤ MAX_SUPPLY)

/-- The request guard of `create-payment-intent`:
`if (!quantity || quantity < 1 || quantity > 20)`.  A JavaScript number
is falsy exactly when it is `0` (or `NaN`, which has no rational
counterpart). -/
def quantityInvalid (q : ℚ) : Bool :=
  decide (q = 0) || decide (q < 1) || decide (20 < q)

/-- `uniqueAmount = PRICE_PER_NFT * quantity + nextId / 100000000.0`,
the per-session correlation amount. -/
def uniqueAmount (q : ℚ) (nextId : Nat) : ℚ :=
  PRICE_PER_NFT * q + (nextId : ℚ) / 100000000

/-- The reservation UPDATE: set `session_id = sid` on the rows of the
random subquery, i.e. on rows that are unclaimed, unreserved, within
supply, and picked by `ORDER BY RANDOM() LIMIT quantity` (the picked id
set is a parameter here). -/
def reserveNfts (nfts : List Nft) (sid : Nat) (picked : List Nat) : List Nft :=
  nfts.map fun n =>
    if n.id ∈ picked ∧ n.claimed = false ∧ n.session_id = none ∧ n.id ≤ MAX_SUPPLY
    then { n with session_id := some sid } else n

/-- Client-visible outcome of `create-payment-intent`. -/
inductive IntentResult
  | ok (sessionId : Nat) (amount : ℚ)
  | invalidQuantity
  | insufficientInventory
  | uniqueViolation
  | reservationShortfall
deriving DecidableEq

/-- The `create-payment-intent` handler (current variant).  After the
quantity guard, the whole body runs in one `db.transaction`: any thrown
error (insufficient inventory, UNIQUE violation on insert, reservation
shortfall) rolls the store back to its pre-state.  `sid` stands for the
random 16-byte session id, `picked` for the random row selection, `now`
for `CURRENT_TIMESTAMP`. -/
def createPaymentIntent (st : Store) (q : ℚ) (sid : Nat) (picked : List Nat)
    (now : Nat) : Store × IntentResult :=
  if quantityInvalid q then (st, .invalidQuantity)
  else if (availableCount st : ℚ) < q then (st, .insufficientInventory)
  else
    let nextId := st.seq + 1
    let amount := uniqueAmount q nextId
    if st.sessions.any fun s =>
        decide (s.amount_due = amount) || decide (s.session_uuid = sid) then
      (st, .uniqueViolation)
    else
      let newSession : Session :=
        { session_uuid := sid, amount_due := amount, quantity := q,
          status := .pending, payment_txid := none, assigned_cids := none,
          created_at := now, updated_at := now }
      let nfts1 := reserveNfts st.nfts sid picked
      if (sessionRefCount nfts1 sid : ℚ) ≠ q then (st, .reservationShortfall)
      else ({ nfts := nfts1, sessions := st.sessions ++ [newSession],
              seq := nextId }, .ok sid amount)

/-- `markPaymentPending(sessionId, txid)` of the mempool scanner:
flip a still-`pending` session to `payment_pending`, record the txid and
bump `updated_at`; no-op otherwise. -/
def markPaymentPending (st : Store) (sid txid now : Nat) : Store :=
  match st.sessions.find? (fun s => decide (s.session_uuid = sid)) with
  | none => st
  | some s =>
    if s.status = .pending then
      { st with sessions := st.sessions.map fun t =>
          if t.session_uuid = sid then
            { t with status := .payment_pending, payment_txid := some txid,
                     updated_at := now }
          else t }
    else st

/-- `SELECT cid FROM nfts WHERE session_id = ? AND claimed = 0 AND id <= ?`
— the rows `fulfillOrder` reads. -/
def unclaimedRefs (nfts : List Nft) (sid : Nat) : List Nft :=
  nfts.filter fun n =>
    decide (n.session_id = some sid) && !n.claimed && decide (n.id ≤ MAX_SUPPLY)

/-- `UPDATE nfts SET session_id = NULL WHERE session_id = ? AND claimed = 0`
— release a session's unclaimed reservations. -/
def releaseNfts (nfts : List Nft) (sid : Nat) : List Nft :=
  nfts.map fun n =>
    if n.session_id = some sid ∧ n.claimed = false
    then { n with session_id := none } else n

/-- `UPDATE nfts SET claimed = 1 WHERE session_id = ? AND claimed = 0`
— claim a session's reserved rows on completion. -/
def claimNfts (nfts : List Nft) (sid : Nat) : List Nft :=
  nfts.map fun n =>
    if n.session_id = some sid ∧ n.claimed = false
    then { n with claimed := true } else n

/-- `fulfillOrder(session, txid, amountPaid)` of the block scanner
(reservation-based variant): if fewer than `quantity` reserved unclaimed
rows remain, release them and mark the session `failed`; otherwise
record the assigned cids and the txid, mark the session `complete` and
claim the rows. -/
def fulfillOrder (st : Store) (sid : Nat) (q : ℚ) (txid : Nat) : Store :=
  let rows := unclaimedRefs st.nfts sid
  if (rows.length : ℚ) < q then
    { st with
      nfts := releaseNfts st.nfts sid,
      sessions := st.sessions.map fun t =>
        if t.session_uuid = sid then { t with status := .failed } else t }
  else
    { st with
      sessions := st.sessions.map fun t =>
        if t.session_uuid = sid then
          { t with status := .complete, payment_txid := some txid,
                   assigned_cids := some (rows.map (·.cid)) }
        else t,
      nfts := claimNfts st.nfts sid }

/-- Release one expired/abandoned session's reservations and delete its
row — the loop body shared by both halves of the sweeper. -/
def sweepOne (st : Store) (sid : Nat) : Store :=
  { st with
    nfts := releaseNfts st.nfts sid,
    sessions := st.sessions.filter fun s => decide (s.session_uuid ≠ sid) }

/-- Sessions selected by the sweeper's first query: `status = 'pending'`
and `datetime(created_at, '+10 minutes') < datetime('now')`. -/
def expiredPending (st : Store) (now : Nat) : List Session :=
  st.sessions.filter fun s =>
    decide (s.status = .pending) &&
    decide (s.created_at + SESSION_TIMEOUT_MINUTES * 60 < now)

/-- Sessions selected by the sweeper's second query: `status =
'payment_pending'` and `datetime(updated_at, '+24 hours') <
datetime('now')`. -/
def abandonedPaymentPending (st : Store) (now : Nat) : List Session :=
  st.sessions.filter fun s =>
    decide (s.status = .payment_pending) &&
    decide (s.updated_at + 24 * 3600 < now)

/-- `cleanupExpiredSessions` (current variant, one transaction): sweep
the expired `pending` sessions, then the `payment_pending` sessions
abandoned for more than 24 hours. -/
def cleanupExpiredSessions (st : Store) (now : Nat) : Store :=
  let st1 := (expiredPending st now).foldl
    (fun acc s => sweepOne acc s.session_uuid) st
  (abandonedPaymentPending st1 now).foldl
    (fun acc s => sweepOne acc s.session_uuid) st1

/-- Response bodies of `GET /check-payment-status/:sessionId`
(current variant). -/
inductive StatusResponse
  | invalidSession
  | expired
  | completeR (items : List Nat) (quantity : ℚ)
  | paymentPending (message : String) (txid : Option Nat)
  | pendingR
  | otherR (status : SessionStatus)
deriving DecidableEq

/-- The `check-payment-status` handler (current variant).  `now` and
`created_at` are in seconds, so `minutesElapsed` is their difference
over 60. -/
def checkPaymentStatus (st : Store) (sid : Nat) (now : Nat) : StatusResponse :=
  match st.sessions.find? (fun s => decide (s.session_uuid = sid)) with
  | none => .invalidSession
  | some s =>
    if s.status = .pending ∧
        ((now : ℚ) - (s.created_at : ℚ)) / 60 > (SESSION_TIMEOUT_MINUTES : ℚ) then
      .expired
    else if s.status = .complete then
      .completeR (s.assigned_cids.getD []) s.quantity
    else if s.status = .payment_pending then
      .paymentPending "Payment detected! Waiting for blockchain confirmation..."
        s.payment_txid
    else if s.status = .pending then .pendingR
    else .otherR s.status

/-- True when the random session id clashes with nothing in the store —
the behaviour of `crypto.randomBytes(16)` with overwhelming
probability, and a hypothesis wherever it matters. -/
def freshSid (st : Store) (sid : Nat) : Bool :=
  (st.sessions.all fun s => decide (s.session_uuid ≠ sid)) &&
  (st.nfts.all fun n => decide (n.session_id ≠ some sid))

/-- Sessions the observers keep in the pending index. -/
def pendingLike (s : Session) : Bool :=
  decide (s.status = .pending) || decide (s.status = .payment_pending)

/-! ## The multi-endpoint RPC pool (payment monitor) -/

/-- One entry of `API_ENDPOINTS`.  `lastReset` is the day stamp
(`new Date().toDateString()`); results and cost are in capacity units. -/
structure Api where
  name : Nat
  dailyLimit : Nat
  cuUsedToday : Nat
  lastReset : Nat
  enabled : Bool
  failCount : Nat
deriving DecidableEq

/-- Daily rollover applied by `selectBestApi` to every endpoint whose
`lastReset` is not today: zero the usage and failures and re-enable. -/
def resetApi (today : Nat) (a : Api) : Api :=
  if a.lastReset ≠ today then
    { a with cuUsedToday := 0, lastReset := today, failCount := 0, enabled := true }
  else a

def resetAll (today : Nat) (apis : List Api) : List Api :=
  apis.map (resetApi today)

/-- The candidate filter of `selectBestApi`: enabled, below 90% of the
daily limit (`cuUsedToday < dailyLimit * 0.9`, exact arithmetic), and
fewer than 3 failures. -/
def isCandidate (a : Api) : Bool :=
  a.enabled && decide (10 * a.cuUsedToday < 9 * a.dailyLimit) &&
    decide (a.failCount < 3)

/-- Remaining capacity, `dailyLimit - cuUsedToday`. -/
def remainingCap (a : Api) : Nat := a.dailyLimit - a.cuUsedToday

/-- The `reduce` of `selectBestApi`: keep the current best unless the
next candidate has strictly more remaining capacity.  Returns the index
(into the reset list) and value of the chosen endpoint, or `none` when
the candidate set is empty. -/
def selectIdx (apis : List Api) : Option (Nat × Api) :=
  match apis.enum.filter (fun p => isCandidate p.2) with
  | [] => none
  | h :: t => some (t.foldl
      (fun best cur => if remainingCap best.2 < remainingCap cur.2 then cur else best) h)

/-- What one HTTP attempt of `rpcCall` can observe: an axios transport
error, a JSON-RPC response carrying an `error` field, or a result. -/
inductive RpcOutcome
  | transport
  | rpcErr
  | ok (r : Nat)
deriving DecidableEq

/-- Failure bookkeeping of one attempt: `failCount++` in both failure
branches; only the transport (catch) branch also disables the endpoint
once `failCount >= 3`. -/
def applyFail (transportCase : Bool) (a : Api) : Api :=
  let a1 : Api := { a with failCount := a.failCount + 1 }
  if transportCase ∧ 3 ≤ a1.failCount then { a1 with enabled := false } else a1

/-- Success bookkeeping of one attempt: charge the estimated cost and
zero `failCount`. -/
def applySuccess (cost : Nat) (a : Api) : Api :=
  { a with cuUsedToday := a.cuUsedToday + cost, failCount := 0 }

/-- The retry loop of `rpcCall`, fuelled by `maxRetries =
API_ENDPOINTS.length`.  Returns the final endpoint table, the result if
any, and the number of HTTP attempts issued.  `oracle k` is the outcome
of the `k`-th attempt. -/
def rpcCallGo (today cost : Nat) (oracle : Nat → RpcOutcome) (attempt fuel : Nat)
    (apis : List Api) : List Api × Option Nat × Nat :=
  match fuel with
  | 0 => (apis, none, attempt)
  | fuel + 1 =>
    let apis1 := resetAll today apis
    match selectIdx apis1 with
    | none => (apis1, none, attempt)
    | some (i, a) =>
      match oracle attempt with
      | .ok r => (apis1.set i (applySuccess cost a), some r, attempt + 1)
      | .rpcErr =>
          rpcCallGo today cost oracle (attempt + 1) fuel (apis1.set i (applyFail false a))
      | .transport =>
          rpcCallGo today cost oracle (attempt + 1) fuel (apis1.set i (applyFail true a))

/-- `rpcCall(method, params, estimatedCU)`. -/
def rpcCall (today cost : Nat) (oracle : Nat → RpcOutcome) (apis : List Api) :
    List Api × Option Nat × Nat :=
  rpcCallGo today cost oracle 0 apis.length apis

/-! ## The block-scanner cursor (`last_scanned_payment_block`) -/

/-- The cursor values written by the scanning loop
`for height = c+1 .. c+n`: after scanning block `h` the loop stores
`h`. -/
def scanWrites (c : ℤ) : Nat → List ℤ
  | 0 => []
  | n + 1 => (c + 1) :: scanWrites (c + 1) n

/-- The sequence of values a single `monitorBlocks` cycle writes to
`settings.last_scanned_payment_block`.  With no pending payments or a
failed `getblockcount` the cycle writes nothing; with no stored cursor
it first inserts `tip - 100` and then scans up to the tip; otherwise it
scans `(cursor, tip]`, which is empty when the tip is at or below the
cursor. -/
def cycleWrites (hasPending : Bool) (tip cursor : Option ℤ) : List ℤ :=
  if !hasPending then []
  else match tip with
  | none => []
  | some h =>
    match cursor with
    | none => (h - 100) :: scanWrites (h - 100) (h - (h - 100)).toNat
    | some c => scanWrites c (h - c).toNat

/-- The cursor after a cycle: the last value written, if any. -/
def cycleNext (hasPending : Bool) (tip cursor : Option ℤ) : Option ℤ :=
  match (cycleWrites hasPending tip cursor).getLast? with
  | some v => some v
  | none => cursor

/-- Run a sequence of scanner cycles; each input is the pair (pending
index non-empty?, tip height returned by the RPC).  Returns the final
cursor and every write in order. -/
def runCycles (cursor : Option ℤ) : List (Bool × Option ℤ) → Option ℤ × List ℤ
  | [] => (cursor, [])
  | (hp, tip) :: rest =>
    let ws := cycleWrites hp tip cursor
    let r := runCycles (cycleNext hp tip cursor) rest
    (r.1, ws ++ r.2)

/-! ## Invariants and the reachable-state relation -/

/-- Distinct sessions carry distinct uuids (the `session_uuid UNIQUE`
schema constraint). -/
def UuidsDistinct (st : Store) : Prop :=
  st.sessions.Pairwise fun a b => a.session_uuid ≠ b.session_uuid

/-- The store invariant: uuids are unique, committed quantities are at
least 1, every `pending`/`payment_pending` session holds exactly
`quantity` unclaimed reservations, and terminal (`complete`/`failed`)
sessions hold none. -/
def Inv (st : Store) : Prop :=
  UuidsDistinct st ∧
  (∀ s ∈ st.sessions, 1 ≤ s.quantity) ∧
  (∀ s ∈ st.sessions, pendingLike s = true →
      (unclaimedRefCount st.nfts s.session_uuid : ℚ) = s.quantity) ∧
  (∀ s ∈ st.sessions, s.status = .complete ∨ s.status = .failed →
      unclaimedRefCount st.nfts s.session_uuid = 0)

/-- One state-mutating operation of the system.  The uuid and the row
pick of `create` are random at run time, so they are arbitrary here up
to freshness of the uuid; `fulfill` and `mark` take an arbitrary target
(covering invocations from a stale in-memory pending index). -/
inductive Step : Store → Store → Prop
  | create (st : Store) (q : ℚ) (sid : Nat) (picked : List Nat) (now : Nat)
      (hfresh : freshSid st sid = true) :
      Step st (createPaymentIntent st q sid picked now).1
  | mark (st : Store) (sid txid now : Nat) :
      Step st (markPaymentPending st sid txid now)
  | fulfill (st : Store) (sid : Nat) (q : ℚ) (txid : Nat) :
      Step st (fulfillOrder st sid q txid)
  | sweep (st : Store) (now : Nat) :
      Step st (cleanupExpiredSessions st now)

/-! ## Counting lemmas for the inventory updates -/

theorem countP_congr_on {α : Type} {l : List α} {p q : α → Bool}
    (h : ∀ a ∈ l, p a = q a) : l.countP p = l.countP q := by
  induction l with
  | nil => rfl
  | cons a t ih =>
    simp only [List.countP_cons, h a (List.mem_cons_self a t)]
    rw [ih fun b hb => h b (List.mem_cons_of_mem a hb)]

theorem countP_map_eq {α : Type} (l : List α) (f : α → α) (p : α → Bool)
    (h : ∀ a ∈ l, p (f a) = p a) : (l.map f).countP p = l.countP p := by
  rw [List.countP_map]
  exact countP_congr_on h

theorem releaseNfts_count_ne (nfts : List Nft) (u v : Nat) (hvu : v ≠ u) :
    unclaimedRefCount (releaseNfts nfts u) v = unclaimedRefCount nfts v := by
  unfold unclaimedRefCount releaseNfts
  apply countP_map_eq
  intro n _
  by_cases hc : n.session_id = some u ∧ n.claimed = false
  · obtain ⟨h1, h2⟩ := hc
    simp [h1, h2, Ne.symm hvu]
  · simp [if_neg hc]

theorem releaseNfts_count_self (nfts : List Nft) (u : Nat) :
    unclaimedRefCount (releaseNfts nfts u) u = 0 := by
  unfold unclaimedRefCount releaseNfts
  rw [List.countP_eq_zero]
  intro m hm
  rcases List.mem_map.mp hm with ⟨n, _, rfl⟩
  by_cases hc : n.session_id = some u ∧ n.claimed = false
  · simp [if_pos hc]
  · simp only [if_neg hc]
    push_neg at hc
    by_cases hr : n.session_id = some u
    · simp [hr, hc hr]
    · simp [hr]

theorem claimNfts_count_ne (nfts : List Nft) (u v : Nat) (hvu : v ≠ u) :
    unclaimedRefCount (claimNfts nfts u) v = unclaimedRefCount nfts v := by
  unfold unclaimedRefCount claimNfts
  apply countP_map_eq
  intro n _
  by_cases hc : n.session_id = some u ∧ n.claimed = false
  · obtain ⟨h1, h2⟩ := hc
    simp [h1, h2, Ne.symm hvu]
  · simp [if_neg hc]

theorem claimNfts_count_self (nfts : List Nft) (u : Nat) :
    unclaimedRefCount (claimNfts nfts u) u = 0 := by
  unfold unclaimedRefCount claimNfts
  rw [List.countP_eq_zero]
  intro m hm
  rcases List.mem_map.mp hm with ⟨n, _, rfl⟩
  by_cases hc : n.session_id = some u ∧ n.claimed = false
  · simp [if_pos hc]
  · simp only [if_neg hc]
    push_neg at hc
    by_cases hr : n.session_id = some u
    · simp [hr, hc hr]
    · simp [hr]

theorem reserveNfts_count_ne (nfts : List Nft) (u v : Nat) (picked : List Nat)
    (hvu : v ≠ u) :
    unclaimedRefCount (reserveNfts nfts u picked) v = unclaimedRefCount nfts v := by
  unfold unclaimedRefCount reserveNfts
  apply countP_map_eq
  intro n _
  by_cases hc : n.id ∈ picked ∧ n.claimed = false ∧ n.session_id = none ∧
      n.id ≤ MAX_SUPPLY
  · obtain ⟨hp, hcl, hnone, hle⟩ := hc
    simp [hp, hcl, hnone, hle, Ne.symm hvu]
  · simp [if_neg hc]

theorem reserveNfts_unclaimed_eq_ref (nfts : List Nft) (u : Nat) (picked : List Nat)
    (hfresh : ∀ n ∈ nfts, n.session_id ≠ some u) :
    unclaimedRefCount (reserveNfts nfts u picked) u =
      sessionRefCount (reserveNfts nfts u picked) u := by
  unfold unclaimedRefCount sessionRefCount reserveNfts
  apply countP_congr_on
  intro m hm
  rcases List.mem_map.mp hm with ⟨n, hn, rfl⟩
  by_cases hc : n.id ∈ picked ∧ n.claimed = false ∧ n.session_id = none ∧
      n.id ≤ MAX_SUPPLY
  · obtain ⟨hp, hcl, hnone, hle⟩ := hc
    simp [hp, hcl, hnone, hle]
  · simp [if_neg hc, hfresh n hn]

/-! ## Lemmas about the sweeper -/

/-- After releasing session `u`, no unclaimed row references `u`. -/
theorem releaseNfts_clears (nfts : List Nft) (u : Nat) :
    ∀ n ∈ releaseNfts nfts u, n.claimed = false → n.session_id ≠ some u := by
  intro m hm hcl
  rcases List.mem_map.mp hm with ⟨n, _, rfl⟩
  by_cases hc : n.session_id = some u ∧ n.claimed = false
  · simp [if_pos hc]
  · simp only [if_neg hc] at hcl ⊢
    push_neg at hc
    exact fun hr => hc hr hcl

/-- Releasing any session preserves the absence of unclaimed references
to `v`. -/
theorem releaseNfts_pres_clear (nfts : List Nft) (u v : Nat)
    (h : ∀ n ∈ nfts, n.claimed = false → n.session_id ≠ some v) :
    ∀ n ∈ releaseNfts nfts u, n.claimed = false → n.session_id ≠ some v := by
  intro m hm hcl
  rcases List.mem_map.mp hm with ⟨n, hn, rfl⟩
  by_cases hc : n.session_id = some u ∧ n.claimed = false
  · simp [if_pos hc]
  · simp only [if_neg hc] at hcl ⊢
    exact h n hn hcl

/-- A claimed row is untouched by a release. -/
theorem releaseNfts_claimed_mem (nfts : List Nft) (u : Nat) (n : Nft)
    (hn : n ∈ nfts) (hcl : n.claimed = true) : n ∈ releaseNfts nfts u := by
  have : (if n.session_id = some u ∧ n.claimed = false
      then { n with session_id := none } else n) = n := by
    rw [if_neg]; simp [hcl]
  exact this ▸ List.mem_map_of_mem _ hn

/-- Sessions are only ever removed by the sweeper fold, never added. -/
theorem sweepFold_sessions_subset (l : List Session) :
    ∀ (st : Store) (t : Session),
      t ∈ (l.foldl (fun acc s => sweepOne acc s.session_uuid) st).sessions →
      t ∈ st.sessions := by
  induction l with
  | nil => intro st t ht; exact ht
  | cons s rest ih =>
    intro st t ht
    have h1 := ih (sweepOne st s.session_uuid) t ht
    exact (List.mem_filter.mp h1).1

/-- A session unrelated to every swept uuid survives the fold
unchanged. -/
theorem sweepFold_sessions_mem (l : List Session) :
    ∀ (st : Store) (t : Session), t ∈ st.sessions →
      (∀ s ∈ l, s.session_uuid ≠ t.session_uuid) →
      t ∈ (l.foldl (fun acc s => sweepOne acc s.session_uuid) st).sessions := by
  induction l with
  | nil => intro st t ht _; exact ht
  | cons s rest ih =>
    intro st t ht hne
    apply ih (sweepOne st s.session_uuid) t
    · apply List.mem_filter.mpr
      refine ⟨ht, ?_⟩
      have := hne s (List.mem_cons_self s rest)
      simp [Ne.symm this]
    · intro e he
      exact hne e (List.mem_cons_of_mem s he)

/-- Once some swept entry carries uuid `u`, no session with uuid `u`
survives the fold. -/
theorem sweepFold_sessions_gone (l : List Session) :
    ∀ (st : Store) (u : Nat), (∃ s ∈ l, s.session_uuid = u) →
      ∀ t ∈ (l.foldl (fun acc s => sweepOne acc s.session_uuid) st).sessions,
        t.session_uuid ≠ u := by
  induction l with
  | nil => intro st u hu; rcases hu with ⟨s, hs, _⟩; cases hs
  | cons s rest ih =>
    intro st u hu t ht
    rcases hu with ⟨e, he, heq⟩
    rcases List.mem_cons.mp he with rfl | hrest
    · -- the head sweep removes uuid u; later sweeps never add sessions
      have hsub := sweepFold_sessions_subset rest (sweepOne st e.session_uuid) t ht
      have := (List.mem_filter.mp hsub).2
      simp only [decide_eq_true_eq] at this
      rw [heq] at this
      exact this
    · exact ih (sweepOne st s.session_uuid) u ⟨e, hrest, heq⟩ t ht

/-- The inventory table after the sweeper fold keeps claimed rows
untouched. -/
theorem sweepFold_claimed_mem (l : List Session) :
    ∀ (st : Store) (n : Nft), n ∈ st.nfts → n.claimed = true →
      n ∈ (l.foldl (fun acc s => sweepOne acc s.session_uuid) st).nfts := by
  induction l with
  | nil => intro st n hn _; exact hn
  | cons s rest ih =>
    intro st n hn hcl
    exact ih (sweepOne st s.session_uuid) n
      (releaseNfts_claimed_mem st.nfts s.session_uuid n hn hcl) hcl

/-- The fold preserves the absence of unclaimed references to `v`. -/
theorem sweepFold_pres_clear (l : List Session) :
    ∀ (st : Store) (v : Nat),
      (∀ n ∈ st.nfts, n.claimed = false → n.session_id ≠ some v) →
      ∀ n ∈ (l.foldl (fun acc s => sweepOne acc s.session_uuid) st).nfts,
        n.claimed = false → n.session_id ≠ some v := by
  induction l with
  | nil => intro st v h; exact h
  | cons s rest ih =>
    intro st v h
    exact ih (sweepOne st s.session_uuid) v
      (releaseNfts_pres_clear st.nfts s.session_uuid v h)

/-- Once some swept entry carries uuid `u`, the final inventory has no
unclaimed reference to `u`. -/
theorem sweepFold_clears (l : List Session) :
    ∀ (st : Store) (u : Nat), (∃ s ∈ l, s.session_uuid = u) →
      ∀ n ∈ (l.foldl (fun acc s => sweepOne acc s.session_uuid) st).nfts,
        n.claimed = false → n.session_id ≠ some u := by
  induction l with
  | nil => intro st u hu; rcases hu with ⟨s, hs, _⟩; cases hs
  | cons s rest ih =>
    intro st u hu
    rcases hu with ⟨e, he, heq⟩
    rcases List.mem_cons.mp he with rfl | hrest
    · subst heq
      exact sweepFold_pres_clear rest (sweepOne st e.session_uuid) e.session_uuid
        (releaseNfts_clears st.nfts e.session_uuid)
    · exact ih (sweepOne st s.session_uuid) u ⟨e, hrest, heq⟩

theorem uuid_ne_of_distinct {st : Store} (hdist : UuidsDistinct st)
    {a b : Session} (ha : a ∈ st.sessions) (hb : b ∈ st.sessions) (hab : a ≠ b) :
    a.session_uuid ≠ b.session_uuid :=
  hdist.forall (fun _ _ h => h.symm) ha hb hab

/-- The first sweeper phase leaves every session untouched whose uuid
differs from all expired `pending` ones, in particular (given distinct
uuids) every non-`pending` session and every young `pending` session. -/
theorem phase1_keeps (st : Store) (now : Nat) (hdist : UuidsDistinct st)
    (s : Session) (hs : s ∈ st.sessions)
    (hnot : ¬ (s.status = .pending ∧ s.created_at + SESSION_TIMEOUT_MINUTES * 60 < now)) :
    s ∈ ((expiredPending st now).foldl
      (fun acc e => sweepOne acc e.session_uuid) st).sessions := by
  apply sweepFold_sessions_mem _ st s hs
  intro e he
  have hmem := List.mem_filter.mp he
  have hcond : e.status = .pending ∧ e.created_at + SESSION_TIMEOUT_MINUTES * 60 < now := by
    have := hmem.2
    simp only [Bool.and_eq_true, decide_eq_true_eq] at this
    exact this
  have hne : e ≠ s := by
    intro h
    exact hnot (h ▸ hcond)
  exact uuid_ne_of_distinct hdist hmem.1 hs hne

/-- C4: for every `payment_pending` session whose `updated_at` is older
than 24 hours, the sweeper deletes the session row, clears the
`session_id` of its unclaimed reserved rows, and touches no claimed
row — the same treatment expired `pending` sessions receive. -/
theorem sweeper_24h_recovery (st : Store) (now : Nat) (s : Session)
    (hdist : UuidsDistinct st) (hs : s ∈ st.sessions)
    (hstat : s.status = .payment_pending)
    (hold : s.updated_at + 24 * 3600 < now) :
    (∀ t ∈ (cleanupExpiredSessions st now).sessions,
        t.session_uuid ≠ s.session_uuid) ∧
    (∀ n ∈ (cleanupExpiredSessions st now).nfts, n.claimed = false →
        n.session_id ≠ some s.session_uuid) ∧
    (∀ n ∈ st.nfts, n.claimed = true → n ∈ (cleanupExpiredSessions st now).nfts) := by
  unfold cleanupExpiredSessions
  have hs1 : s ∈ ((expiredPending st now).foldl
      (fun acc e => sweepOne acc e.session_uuid) st).sessions := by
    apply phase1_keeps st now hdist s hs
    intro h
    rw [hstat] at h
    cases h.1
  have hab : s ∈ abandonedPaymentPending
      ((expiredPending st now).foldl (fun acc e => sweepOne acc e.session_uuid) st) now := by
    apply List.mem_filter.mpr
    refine ⟨hs1, ?_⟩
    simp [hstat, hold]
  refine ⟨?_, ?_, ?_⟩
  · exact sweepFold_sessions_gone _ _ s.session_uuid ⟨s, hab, rfl⟩
  · exact sweepFold_clears _ _ s.session_uuid ⟨s, hab, rfl⟩
  · intro n hn hcl
    apply sweepFold_claimed_mem
    · exact sweepFold_claimed_mem _ st n hn hcl
    · exact hcl

/-- C4 witness: a concrete abandoned `payment_pending` session is
removed by the sweep. -/
theorem sweeper_24h_recovery_witness :
    ((cleanupExpiredSessions
        ⟨[⟨2, 20, false, some 2⟩],
         [⟨2, 42, 1, .payment_pending, some 9, none, 0, 0⟩], 1⟩ 86401).sessions.all
      fun t => decide (t.session_uuid ≠ 2)) = true := by
  have h := sweeper_24h_recovery
    ⟨[⟨2, 20, false, some 2⟩],
     [⟨2, 42, 1, .payment_pending, some 9, none, 0, 0⟩], 1⟩ 86401
    ⟨2, 42, 1, .payment_pending, some 9, none, 0, 0⟩
    (by simp [UuidsDistinct]) (by simp) (by rfl) (by norm_num)
  rw [List.all_eq_true]
  intro t ht
  simpa using h.1 t ht

/-- C5: the sweeper deletes a `pending` session and releases its
unclaimed reserved rows exactly when `created_at` is more than
`SESSION_TIMEOUT_MINUTES = 10` minutes in the past; a younger `pending`
session survives the sweep. -/
theorem sweeper_expiry (st : Store) (now : Nat) (s : Session)
    (hdist : UuidsDistinct st) (hs : s ∈ st.sessions)
    (hstat : s.status = .pending) :
    SESSION_TIMEOUT_MINUTES = 10 ∧
    (s.created_at + SESSION_TIMEOUT_MINUTES * 60 < now →
      (∀ t ∈ (cleanupExpiredSessions st now).sessions,
          t.session_uuid ≠ s.session_uuid) ∧
      (∀ n ∈ (cleanupExpiredSessions st now).nfts, n.claimed = false →
          n.session_id ≠ some s.session_uuid)) ∧
    (¬ s.created_at + SESSION_TIMEOUT_MINUTES * 60 < now →
      s ∈ (cleanupExpiredSessions st now).sessions) := by
  refine ⟨rfl, ?_, ?_⟩
  · intro htime
    have hexp : s ∈ expiredPending st now := by
      apply List.mem_filter.mpr
      refine ⟨hs, ?_⟩
      simp [hstat, htime]
    unfold cleanupExpiredSessions
    constructor
    · intro t ht
      have hsub := sweepFold_sessions_subset _ _ t ht
      exact sweepFold_sessions_gone _ st s.session_uuid ⟨s, hexp, rfl⟩ t hsub
    · apply sweepFold_pres_clear
      exact sweepFold_clears _ st s.session_uuid ⟨s, hexp, rfl⟩
  · intro htime
    unfold cleanupExpiredSessions
    have hs1 : s ∈ ((expiredPending st now).foldl
        (fun acc e => sweepOne acc e.session_uuid) st).sessions :=
      phase1_keeps st now hdist s hs (fun h => htime h.2)
    apply sweepFold_sessions_mem _ _ s hs1
    intro e he
    have hmem := List.mem_filter.mp he
    have hcond : e.status = .payment_pending := by
      have := hmem.2
      simp only [Bool.and_eq_true, decide_eq_true_eq] at this
      exact this.1
    have hmem0 := sweepFold_sessions_subset _ _ e hmem.1
    have hne : e ≠ s := by
      intro h
      rw [h, hstat] at hcond
      cases hcond
    exact uuid_ne_of_distinct hdist hmem0 hs hne

/-- C5 witness: a `pending` session created at time 0 is swept at time
601 s (> 10 min). -/
theorem sweeper_expiry_witness :
    ((cleanupExpiredSessions
        ⟨[⟨1, 10, false, some 1⟩],
         [⟨1, 42, 1, .pending, none, none, 0, 0⟩], 1⟩ 601).sessions.all
      fun t => decide (t.session_uuid ≠ 1)) = true := by
  have h := sweeper_expiry
    ⟨[⟨1, 10, false, some 1⟩],
     [⟨1, 42, 1, .pending, none, none, 0, 0⟩], 1⟩ 601
    ⟨1, 42, 1, .pending, none, none, 0, 0⟩
    (by simp [UuidsDistinct]) (by simp) rfl
  rw [List.all_eq_true]
  intro t ht
  simpa using (h.2.1 (by decide)).1 t ht

/-- C6: for a stored session in status `payment_pending`, the
`check-payment-status` handler answers `payment_pending` together with
a message and the recorded txid, at every request time. -/
theorem check_status_payment_pending (st : Store) (sid now : Nat) (s : Session)
    (hfind : st.sessions.find? (fun t => decide (t.session_uuid = sid)) = some s)
    (hstat : s.status = .payment_pending) :
    checkPaymentStatus st sid now =
      .paymentPending "Payment detected! Waiting for blockchain confirmation..."
        s.payment_txid := by
  unfold checkPaymentStatus
  rw [hfind]
  simp [hstat]

/-- C6 witness: concrete `payment_pending` session with txid 77. -/
theorem check_status_payment_pending_witness :
    checkPaymentStatus
      ⟨[], [⟨2, 1/100, 1, .payment_pending, some 77, none, 0, 0⟩], 1⟩ 2 999999 =
      .paymentPending "Payment detected! Waiting for blockchain confirmation..."
        (some 77) := by
  exact check_status_payment_pending
    ⟨[], [⟨2, 1/100, 1, .payment_pending, some 77, none, 0, 0⟩], 1⟩ 2 999999
    ⟨2, 1/100, 1, .payment_pending, some 77, none, 0, 0⟩ (by rfl) rfl

/-- The rejection guard in terms of the request value. -/
theorem quantityInvalid_iff (q : ℚ) :
    quantityInvalid q = true ↔ (q = 0 ∨ q < 1 ∨ 20 < q) := by
  simp [quantityInvalid, or_assoc]

/-- C9: `create-payment-intent` answers the invalid-quantity error
exactly for falsy, below-1 or above-20 quantities; the non-integer
quantity 5/2 passes the guard and enters the reservation transaction
(its outcome is then one of the transaction results, never the
validation error). -/
theorem quantity_validation (st : Store) (sid : Nat) (picked : List Nat) (now : Nat) :
    (∀ q : ℚ, (createPaymentIntent st q sid picked now).2 = .invalidQuantity ↔
      (q = 0 ∨ q < 1 ∨ 20 < q)) ∧
    ((5 : ℚ) / 2).den ≠ 1 ∧
    (createPaymentIntent st (5 / 2) sid picked now).2 ≠ .invalidQuantity := by
  have hmain : ∀ q : ℚ, (createPaymentIntent st q sid picked now).2 = .invalidQuantity ↔
      quantityInvalid q = true := by
    intro q
    cases hq : quantityInvalid q with
    | true => simp [createPaymentIntent, hq]
    | false =>
      simp only [createPaymentIntent, hq, Bool.false_eq_true, if_false]
      constructor
      · intro hres
        split_ifs at hres
      · intro hcontra
        exact hcontra.elim
  refine ⟨fun q => (hmain q).trans (quantityInvalid_iff q), by norm_num, ?_⟩
  intro hres
  have := (hmain (5 / 2)).mp hres
  rw [quantityInvalid_iff] at this
  rcases this with h | h | h <;> norm_num at h

/-- C9 witness: instance of the validation characterisation at the
empty store. -/
theorem quantity_validation_witness :
    (createPaymentIntent ⟨[], [], 0⟩ (5 / 2) 1 [] 0).2 ≠ .invalidQuantity :=
  (quantity_validation ⟨[], [], 0⟩ 1 [] 0).2.2

theorem freshSid_spec (st : Store) (sid : Nat) (h : freshSid st sid = true) :
    (∀ s ∈ st.sessions, s.session_uuid ≠ sid) ∧
    (∀ n ∈ st.nfts, n.session_id ≠ some sid) := by
  simp only [freshSid, Bool.and_eq_true, List.all_eq_true, decide_eq_true_eq] at h
  exact h

/-- Either the intent transaction rolled back (the store is returned
unchanged) or it committed and reported the generated amount. -/
theorem intent_rollback_or_commit (st : Store) (q : ℚ) (sid : Nat)
    (picked : List Nat) (now : Nat) :
    (createPaymentIntent st q sid picked now).1 = st ∨
    (createPaymentIntent st q sid picked now).2 =
      .ok sid (uniqueAmount q (st.seq + 1)) := by
  simp only [createPaymentIntent]
  split_ifs <;> simp

/-- C10: whenever `create-payment-intent` reports insufficient
inventory, a uniqueness violation or a reservation shortfall, the
transaction has rolled back: the store is unchanged, no session row
with the generated uuid exists and no inventory row references it. -/
theorem intent_atomicity (st : Store) (q : ℚ) (sid : Nat) (picked : List Nat)
    (now : Nat) (hfresh : freshSid st sid = true)
    (herr : (createPaymentIntent st q sid picked now).2 = .insufficientInventory ∨
            (createPaymentIntent st q sid picked now).2 = .uniqueViolation ∨
            (createPaymentIntent st q sid picked now).2 = .reservationShortfall) :
    (createPaymentIntent st q sid picked now).1 = st ∧
    (∀ s ∈ (createPaymentIntent st q sid picked now).1.sessions,
        s.session_uuid ≠ sid) ∧
    (∀ n ∈ (createPaymentIntent st q sid picked now).1.nfts,
        n.session_id ≠ some sid) := by
  have hfst : (createPaymentIntent st q sid picked now).1 = st := by
    rcases intent_rollback_or_commit st q sid picked now with h | h
    · exact h
    · rcases herr with he | he | he <;> rw [he] at h <;> cases h
  refine ⟨hfst, ?_, ?_⟩
  · rw [hfst]
    exact (freshSid_spec st sid hfresh).1
  · rw [hfst]
    exact (freshSid_spec st sid hfresh).2

/-- C10 witness: one item, request for two — insufficient inventory,
store unchanged. -/
theorem intent_atomicity_witness :
    (createPaymentIntent ⟨[⟨1, 10, false, none⟩], [], 0⟩ 2 7 [1] 0).1 =
      ⟨[⟨1, 10, false, none⟩], [], 0⟩ := by
  have h := intent_atomicity ⟨[⟨1, 10, false, none⟩], [], 0⟩ 2 7 [1] 0
    (by decide) (by left; decide)
  exact h.1

/-- C3 counterexample: the correlation amount is not injective across
different quantities — a quantity-2 session with sequence value 1 and a
quantity-1 session with sequence value 500001 receive the same
`amount_due`, so distinctness of all pairs fails as soon as the
monotonic sequence crosses 500000. -/
theorem unique_amount_counterexample :
    uniqueAmount 2 1 = uniqueAmount 1 500001 ∧
    ¬ ((2 : ℚ) = 1 ∧ (1 : Nat) = 500001) ∧
    (createPaymentIntent ⟨[⟨1, 1, false, none⟩, ⟨2, 2, false, none⟩], [], 0⟩
        2 7 [1, 2] 0).2 = .ok 7 (1000001 / 100000000) ∧
    (createPaymentIntent ⟨[⟨1, 1, false, none⟩], [], 500000⟩
        1 8 [1] 0).2 = .ok 8 (1000001 / 100000000) := by
  refine ⟨?_, ?_,
    by norm_num [createPaymentIntent, quantityInvalid, availableCount, MAX_SUPPLY,
      uniqueAmount, PRICE_PER_NFT, reserveNfts, sessionRefCount, List.countP,
      List.countP.go],
    by norm_num [createPaymentIntent, quantityInvalid, availableCount, MAX_SUPPLY,
      uniqueAmount, PRICE_PER_NFT, reserveNfts, sessionRefCount, List.countP,
      List.countP.go]⟩
  · norm_num [uniqueAmount, PRICE_PER_NFT]
  · rintro ⟨h, _⟩
    norm_num at h

/-- C3 amended: a committed intent's `amount_due` is
`PRICE_PER_NFT * quantity + nextId / 10^8` with `nextId` the sequence
value plus one, and the sequence advances by one; amounts of sessions
with the same quantity are pairwise distinct (so 1000 sequential
quantity-1 intents get 1000 distinct amounts), and consecutive
quantity-1 amounts differ by exactly `10^-8`.  Distinctness across
different quantities fails in general (see the counterexample). -/
theorem unique_amount_amended :
    (∀ (st : Store) (q : ℚ) (sid : Nat) (picked : List Nat) (now : Nat)
        (st2 : Store) (a : ℚ),
        createPaymentIntent st q sid picked now = (st2, .ok sid a) →
        a = uniqueAmount q (st.seq + 1) ∧ st2.seq = st.seq + 1 ∧
        ∃ s ∈ st2.sessions, s.session_uuid = sid ∧ s.amount_due = a) ∧
    (∀ (q : ℚ) (n m : Nat), n ≠ m → uniqueAmount q n ≠ uniqueAmount q m) ∧
    (∀ n : Nat, uniqueAmount 1 (n + 1) - uniqueAmount 1 n = 1 / 100000000) := by
  refine ⟨?_, ?_, ?_⟩
  · intro st q sid picked now st2 a h
    simp only [createPaymentIntent] at h
    split_ifs at h <;> simp only [Prod.mk.injEq, IntentResult.ok.injEq] at h
    · exact IntentResult.noConfusion h.2
    · exact IntentResult.noConfusion h.2
    · exact IntentResult.noConfusion h.2
    · exact IntentResult.noConfusion h.2
    · refine ⟨h.2.2.symm, ?_, ?_⟩
      · rw [← h.1]
      · refine ⟨⟨sid, uniqueAmount q (st.seq + 1), q, .pending, none, none, now, now⟩,
          ?_, rfl, h.2.2⟩
        rw [← h.1]
        simp
  · intro q n m hnm heq
    unfold uniqueAmount at heq
    have h2 := add_left_cancel heq
    have h3 : (n : ℚ) = m := by
      field_simp at h2
      exact_mod_cast h2
    exact hnm (by exact_mod_cast h3)
  · intro n
    unfold uniqueAmount PRICE_PER_NFT
    push_cast
    ring

/-- C3 witness: two consecutive sequence values give distinct
quantity-1 amounts. -/
theorem unique_amount_amended_witness :
    uniqueAmount 1 1 ≠ uniqueAmount 1 2 :=
  unique_amount_amended.2.1 1 1 2 (by decide)

/-! ## Idempotence of completion (claim C2) -/

theorem map_eq_self_on {α : Type} {l : List α} {f : α → α}
    (h : ∀ a ∈ l, f a = a) : l.map f = l := by
  induction l with
  | nil => rfl
  | cons a t ih =>
    rw [List.map_cons, h a (List.mem_cons_self a t),
      ih fun b hb => h b (List.mem_cons_of_mem a hb)]

theorem releaseNfts_eq_self {nfts : List Nft} {u : Nat}
    (h : ∀ n ∈ nfts, ¬(n.session_id = some u ∧ n.claimed = false)) :
    releaseNfts nfts u = nfts := by
  apply map_eq_self_on
  intro n hn
  rw [if_neg (h n hn)]

theorem unclaimedRefs_nil_of_clear {nfts : List Nft} {u : Nat}
    (h : ∀ n ∈ nfts, ¬(n.session_id = some u ∧ n.claimed = false)) :
    unclaimedRefs nfts u = [] := by
  unfold unclaimedRefs
  rw [List.filter_eq_nil_iff]
  intro n hn hp
  simp only [Bool.and_eq_true, decide_eq_true_eq, Bool.not_eq_true'] at hp
  exact h n hn ⟨hp.1.1, hp.1.2⟩

theorem clear_of_count_zero {nfts : List Nft} {u : Nat}
    (h : unclaimedRefCount nfts u = 0) :
    ∀ n ∈ nfts, ¬(n.session_id = some u ∧ n.claimed = false) := by
  rw [unclaimedRefCount, List.countP_eq_zero] at h
  intro n hn hc
  apply h n hn
  simp [hc.1, hc.2]

/-- C2 amended: `fulfillOrder` is a no-op on a session in status
`failed`; on a session in status `complete`, however, it is NOT a
no-op — the items table is unchanged but the session's status is
overwritten to `failed` (the shortfall branch fires because no unclaimed
reserved rows remain).  The claim as stated fails for `complete`
sessions; see the counterexample. -/
theorem completion_idempotence_amended (st : Store) (s : Session) (txid : Nat)
    (hinv : Inv st) (hs : s ∈ st.sessions)
    (hterm : s.status = .complete ∨ s.status = .failed) :
    (s.status = .failed → fulfillOrder st s.session_uuid s.quantity txid = st) ∧
    (s.status = .complete →
      (fulfillOrder st s.session_uuid s.quantity txid).nfts = st.nfts ∧
      (fulfillOrder st s.session_uuid s.quantity txid).sessions =
        st.sessions.map fun t =>
          if t.session_uuid = s.session_uuid then { t with status := .failed }
          else t) := by
  obtain ⟨hdist, hq, _, hterm0⟩ := hinv
  have hclear := clear_of_count_zero (hterm0 s hs hterm)
  have hrows := unclaimedRefs_nil_of_clear hclear
  have hnfts : releaseNfts st.nfts s.session_uuid = st.nfts :=
    releaseNfts_eq_self hclear
  have hpos : (0 : ℚ) < s.quantity := lt_of_lt_of_le zero_lt_one (hq s hs)
  have hbranch : fulfillOrder st s.session_uuid s.quantity txid =
      { st with
        nfts := releaseNfts st.nfts s.session_uuid,
        sessions := st.sessions.map fun t =>
          if t.session_uuid = s.session_uuid then { t with status := .failed }
          else t } := by
    simp only [fulfillOrder, hrows]
    rw [if_pos]
    simpa using hpos
  constructor
  · intro hfail
    rw [hbranch, hnfts]
    have hsess : (st.sessions.map fun t =>
        if t.session_uuid = s.session_uuid then { t with status := .failed }
        else t) = st.sessions := by
      apply map_eq_self_on
      intro t ht
      by_cases he : t.session_uuid = s.session_uuid
      · have hts : t = s := by
          by_contra hne
          exact uuid_ne_of_distinct hdist ht hs hne he
        rw [if_pos he, hts]
        have : s.status = .failed := hfail
        rcases s with ⟨u, a, q2, stt, tx, ac, ca, ua⟩
        simp only at this
        rw [this]
      · rw [if_neg he]
    rw [hsess]
  · intro _
    rw [hbranch]
    exact ⟨hnfts, rfl⟩

def cexSession : Session := ⟨5, 42, 1, .complete, some 77, some [42], 0, 0⟩

def cexStore : Store := ⟨[⟨1, 42, true, some 5⟩], [cexSession], 1⟩

/-- C2 counterexample: on a store satisfying the invariant whose only
session is `complete` (its row claimed), re-invoking `fulfillOrder`
is NOT a no-op — it overwrites the session's status with `failed`,
refuting the claim for statuses outside `{pending, payment_pending}`. -/
theorem completion_not_idempotent_counterexample :
    cexSession.status = .complete ∧
    Inv cexStore ∧
    fulfillOrder cexStore cexSession.session_uuid cexSession.quantity 88 ≠
      cexStore ∧
    (fulfillOrder cexStore 5 1 88).sessions.map Session.status =
      [SessionStatus.failed] := by
  refine ⟨rfl, ⟨?_, ?_, ?_, ?_⟩, by decide, by decide⟩
  · simp [UuidsDistinct, cexStore]
  · intro s hs
    simp only [cexStore, List.mem_singleton] at hs
    subst hs
    norm_num [cexSession]
  · intro s hs hp
    simp only [cexStore, List.mem_singleton] at hs
    subst hs
    simp [pendingLike, cexSession] at hp
  · intro s hs _
    simp only [cexStore, List.mem_singleton] at hs
    subst hs
    decide

def cexFailed : Session := ⟨6, 43, 1, .failed, none, none, 0, 0⟩

def cexStoreF : Store := ⟨[], [cexFailed], 1⟩

/-- C2 witness: on a `failed` session the amended no-op half applies. -/
theorem completion_idempotence_amended_witness :
    fulfillOrder cexStoreF 6 1 99 = cexStoreF := by
  have hinv : Inv cexStoreF := by
    refine ⟨?_, ?_, ?_, ?_⟩
    · simp [UuidsDistinct, cexStoreF]
    · intro s hs
      simp only [cexStoreF, List.mem_singleton] at hs
      subst hs
      norm_num [cexFailed]
    · intro s hs hp
      simp only [cexStoreF, List.mem_singleton] at hs
      subst hs
      simp [pendingLike, cexFailed] at hp
    · intro s hs _
      simp only [cexStoreF, List.mem_singleton] at hs
      subst hs
      decide
  have h := completion_idempotence_amended cexStoreF cexFailed 99 hinv
    (by simp [cexStoreF]) (Or.inr rfl)
  exact h.1 rfl

/-! ## Preservation of the reservation-count invariant (claim C1) -/

theorem pairwise_uuid_map (l : List Session) (f : Session → Session)
    (hf : ∀ t, (f t).session_uuid = t.session_uuid)
    (h : l.Pairwise fun a b => a.session_uuid ≠ b.session_uuid) :
    (l.map f).Pairwise fun a b => a.session_uuid ≠ b.session_uuid := by
  rw [List.pairwise_map]
  exact h.imp fun {a b} hab => by rw [hf a, hf b]; exact hab

theorem inv_sweepOne (st : Store) (u : Nat) (hinv : Inv st) :
    Inv (sweepOne st u) := by
  obtain ⟨hdist, hq, hpend, hterm⟩ := hinv
  have hmem : ∀ t, t ∈ (sweepOne st u).sessions →
      t ∈ st.sessions ∧ t.session_uuid ≠ u := by
    intro t ht
    have := List.mem_filter.mp ht
    exact ⟨this.1, by simpa using this.2⟩
  refine ⟨hdist.filter _, ?_, ?_, ?_⟩
  · intro s hs
    exact hq s (hmem s hs).1
  · intro s hs hp
    obtain ⟨hs0, hne⟩ := hmem s hs
    show (unclaimedRefCount (releaseNfts st.nfts u) s.session_uuid : ℚ) = s.quantity
    rw [releaseNfts_count_ne st.nfts u s.session_uuid hne]
    exact hpend s hs0 hp
  · intro s hs hts
    obtain ⟨hs0, hne⟩ := hmem s hs
    show unclaimedRefCount (releaseNfts st.nfts u) s.session_uuid = 0
    rw [releaseNfts_count_ne st.nfts u s.session_uuid hne]
    exact hterm s hs0 hts

theorem inv_sweepFold (l : List Session) :
    ∀ st : Store, Inv st →
      Inv (l.foldl (fun acc s => sweepOne acc s.session_uuid) st) := by
  induction l with
  | nil => intro st h; exact h
  | cons s rest ih =>
    intro st h
    exact ih (sweepOne st s.session_uuid) (inv_sweepOne st s.session_uuid h)

theorem inv_cleanup (st : Store) (now : Nat) (hinv : Inv st) :
    Inv (cleanupExpiredSessions st now) := by
  unfold cleanupExpiredSessions
  exact inv_sweepFold _ _ (inv_sweepFold _ st hinv)

theorem inv_mark (st : Store) (sid txid now : Nat) (hinv : Inv st) :
    Inv (markPaymentPending st sid txid now) := by
  obtain ⟨hdist, hq, hpend, hterm⟩ := hinv
  cases hfind : st.sessions.find? (fun s => decide (s.session_uuid = sid)) with
  | none =>
    simp only [markPaymentPending, hfind]
    exact ⟨hdist, hq, hpend, hterm⟩
  | some s0 =>
    simp only [markPaymentPending, hfind]
    by_cases hstat : s0.status = .pending
    · rw [if_pos hstat]
      have hs0 := List.mem_of_find?_eq_some hfind
      have hs0id : s0.session_uuid = sid := by
        have := List.find?_some hfind
        simpa using this
      refine ⟨?_, ?_, ?_, ?_⟩
      · apply pairwise_uuid_map _ _ _ hdist
        intro t
        by_cases he : t.session_uuid = sid
        · rw [if_pos he]
        · rw [if_neg he]
      · intro s' hs'
        rcases List.mem_map.mp hs' with ⟨t, ht, rfl⟩
        by_cases he : t.session_uuid = sid
        · rw [if_pos he]
          exact hq t ht
        · rw [if_neg he]
          exact hq t ht
      · intro s' hs' hp'
        rcases List.mem_map.mp hs' with ⟨t, ht, rfl⟩
        by_cases he : t.session_uuid = sid
        · rw [if_pos he] at hp' ⊢
          have hts : t = s0 := by
            by_contra hne
            exact uuid_ne_of_distinct hdist ht hs0 hne (he.trans hs0id.symm)
          have htp : pendingLike t = true := by
            rw [hts]
            simp [pendingLike, hstat]
          exact hpend t ht htp
        · rw [if_neg he] at hp' ⊢
          exact hpend t ht hp'
      · intro s' hs' hts'
        rcases List.mem_map.mp hs' with ⟨t, ht, rfl⟩
        by_cases he : t.session_uuid = sid
        · rw [if_pos he] at hts'
          rcases hts' with h | h <;> cases h
        · rw [if_neg he] at hts' ⊢
          exact hterm t ht hts'
    · rw [if_neg hstat]
      exact ⟨hdist, hq, hpend, hterm⟩

theorem inv_fulfill (st : Store) (sid : Nat) (q : ℚ) (txid : Nat)
    (hinv : Inv st) : Inv (fulfillOrder st sid q txid) := by
  obtain ⟨hdist, hq, hpend, hterm⟩ := hinv
  simp only [fulfillOrder]
  split_ifs with hlen
  · -- shortfall: release and mark failed
    refine ⟨?_, ?_, ?_, ?_⟩
    · apply pairwise_uuid_map _ _ _ hdist
      intro t
      by_cases he : t.session_uuid = sid
      · rw [if_pos he]
      · rw [if_neg he]
    · intro s' hs'
      rcases List.mem_map.mp hs' with ⟨t, ht, rfl⟩
      by_cases he : t.session_uuid = sid
      · rw [if_pos he]; exact hq t ht
      · rw [if_neg he]; exact hq t ht
    · intro s' hs' hp'
      rcases List.mem_map.mp hs' with ⟨t, ht, rfl⟩
      by_cases he : t.session_uuid = sid
      · rw [if_pos he] at hp'
        simp [pendingLike] at hp'
      · rw [if_neg he] at hp' ⊢
        show (unclaimedRefCount (releaseNfts st.nfts sid) t.session_uuid : ℚ) =
          t.quantity
        rw [releaseNfts_count_ne st.nfts sid t.session_uuid he]
        exact hpend t ht hp'
    · intro s' hs' hts'
      rcases List.mem_map.mp hs' with ⟨t, ht, rfl⟩
      by_cases he : t.session_uuid = sid
      · rw [if_pos he]
        show unclaimedRefCount (releaseNfts st.nfts sid) t.session_uuid = 0
        rw [he]
        exact releaseNfts_count_self st.nfts sid
      · rw [if_neg he] at hts' ⊢
        show unclaimedRefCount (releaseNfts st.nfts sid) t.session_uuid = 0
        rw [releaseNfts_count_ne st.nfts sid t.session_uuid he]
        exact hterm t ht hts'
  · -- completion: claim rows, session complete
    refine ⟨?_, ?_, ?_, ?_⟩
    · apply pairwise_uuid_map _ _ _ hdist
      intro t
      by_cases he : t.session_uuid = sid
      · rw [if_pos he]
      · rw [if_neg he]
    · intro s' hs'
      rcases List.mem_map.mp hs' with ⟨t, ht, rfl⟩
      by_cases he : t.session_uuid = sid
      · rw [if_pos he]; exact hq t ht
      · rw [if_neg he]; exact hq t ht
    · intro s' hs' hp'
      rcases List.mem_map.mp hs' with ⟨t, ht, rfl⟩
      by_cases he : t.session_uuid = sid
      · rw [if_pos he] at hp'
        simp [pendingLike] at hp'
      · rw [if_neg he] at hp' ⊢
        show (unclaimedRefCount (claimNfts st.nfts sid) t.session_uuid : ℚ) =
          t.quantity
        rw [claimNfts_count_ne st.nfts sid t.session_uuid he]
        exact hpend t ht hp'
    · intro s' hs' hts'
      rcases List.mem_map.mp hs' with ⟨t, ht, rfl⟩
      by_cases he : t.session_uuid = sid
      · rw [if_pos he]
        show unclaimedRefCount (claimNfts st.nfts sid) t.session_uuid = 0
        rw [he]
        exact claimNfts_count_self st.nfts sid
      · rw [if_neg he] at hts' ⊢
        show unclaimedRefCount (claimNfts st.nfts sid) t.session_uuid = 0
        rw [claimNfts_count_ne st.nfts sid t.session_uuid he]
        exact hterm t ht hts'

theorem inv_create (st : Store) (q : ℚ) (sid : Nat) (picked : List Nat)
    (now : Nat) (hfresh : freshSid st sid = true) (hinv : Inv st) :
    Inv (createPaymentIntent st q sid picked now).1 := by
  obtain ⟨hdist, hq, hpend, hterm⟩ := hinv
  obtain ⟨hsfresh, hnfresh⟩ := freshSid_spec st sid hfresh
  simp only [createPaymentIntent]
  split_ifs with h1 h2 h3 h4
  · exact ⟨hdist, hq, hpend, hterm⟩
  · exact ⟨hdist, hq, hpend, hterm⟩
  · exact ⟨hdist, hq, hpend, hterm⟩
  · exact ⟨hdist, hq, hpend, hterm⟩
  · -- committed
    have hq1 : 1 ≤ q := by
      have h1' : ¬(q = 0 ∨ q < 1 ∨ 20 < q) := fun hcon =>
        h1 ((quantityInvalid_iff q).mpr hcon)
      push_neg at h1'
      exact h1'.2.1
    have hcnt : (sessionRefCount (reserveNfts st.nfts sid picked) sid : ℚ) = q :=
      not_ne_iff.mp h4
    refine ⟨?_, ?_, ?_, ?_⟩
    · show List.Pairwise (fun a b => a.session_uuid ≠ b.session_uuid)
        (st.sessions ++
          [(⟨sid, uniqueAmount q (st.seq + 1), q, .pending, none, none, now,
            now⟩ : Session)])
      rw [List.pairwise_append]
      refine ⟨hdist, List.pairwise_singleton _ _, ?_⟩
      intro a ha b hb
      rw [List.mem_singleton.mp hb]
      exact hsfresh a ha
    · intro s' hs'
      rcases List.mem_append.mp hs' with h | h
      · exact hq s' h
      · rw [List.mem_singleton.mp h]
        exact hq1
    · intro s' hs' hp'
      rcases List.mem_append.mp hs' with h | h
      · show (unclaimedRefCount (reserveNfts st.nfts sid picked) s'.session_uuid : ℚ)
          = s'.quantity
        rw [reserveNfts_count_ne st.nfts sid s'.session_uuid picked (hsfresh s' h)]
        exact hpend s' h hp'
      · rw [List.mem_singleton.mp h]
        show (unclaimedRefCount (reserveNfts st.nfts sid picked) sid : ℚ) = q
        rw [reserveNfts_unclaimed_eq_ref st.nfts sid picked hnfresh]
        exact hcnt
    · intro s' hs' hts'
      rcases List.mem_append.mp hs' with h | h
      · show unclaimedRefCount (reserveNfts st.nfts sid picked) s'.session_uuid = 0
        rw [reserveNfts_count_ne st.nfts sid s'.session_uuid picked (hsfresh s' h)]
        exact hterm s' h hts'
      · rw [List.mem_singleton.mp h] at hts'
        rcases hts' with h' | h' <;> cases h'

theorem inv_step {st st2 : Store} (hinv : Inv st) (h : Step st st2) : Inv st2 := by
  cases h with
  | create q sid picked now hfresh => exact inv_create st q sid picked now hfresh hinv
  | mark sid txid now => exact inv_mark st sid txid now hinv
  | fulfill sid q txid => exact inv_fulfill st sid q txid hinv
  | sweep now => exact inv_cleanup st now hinv

/-- C1: every state-mutating operation (`create-payment-intent`,
`markPaymentPending`, `fulfillOrder`, the sweeper) preserves the store
invariant, and in every state reachable from an invariant-satisfying
initial state every `pending`/`payment_pending` session has exactly
`quantity` unclaimed inventory rows referencing it. -/
theorem reservation_count_invariant :
    (∀ st st2 : Store, Inv st → Step st st2 → Inv st2) ∧
    (∀ st0 st : Store, Inv st0 → Relation.ReflTransGen Step st0 st →
      ∀ s ∈ st.sessions, pendingLike s = true →
        (unclaimedRefCount st.nfts s.session_uuid : ℚ) = s.quantity) := by
  refine ⟨fun st st2 hi hs => inv_step hi hs, ?_⟩
  intro st0 st h0 hreach
  have hinv : Inv st := by
    induction hreach with
    | refl => exact h0
    | tail _ hbc ih => exact inv_step ih hbc
  exact hinv.2.2.1

def wStore0 : Store := ⟨[⟨1, 42, false, none⟩, ⟨2, 43, false, none⟩], [], 0⟩

def wSess : Session :=
  ⟨7, uniqueAmount 1 1, 1, .pending, none, none, 0, 0⟩

/-- C1 witness: after one concrete `create-payment-intent` step from a
two-item store, the created `pending` session holds exactly one
reservation. -/
theorem reservation_count_invariant_witness :
    (unclaimedRefCount (createPaymentIntent wStore0 1 7 [1] 0).1.nfts 7 : ℚ) = 1 := by
  have hinv0 : Inv wStore0 := by
    refine ⟨?_, ?_, ?_, ?_⟩
    · simp [UuidsDistinct, wStore0]
    · intro s hs; simp [wStore0] at hs
    · intro s hs; simp [wStore0] at hs
    · intro s hs; simp [wStore0] at hs
  have h := reservation_count_invariant.2 wStore0
    (createPaymentIntent wStore0 1 7 [1] 0).1 hinv0
    (Relation.ReflTransGen.single (Step.create wStore0 1 7 [1] 0 (by decide)))
  have hmem : wSess ∈ (createPaymentIntent wStore0 1 7 [1] 0).1.sessions := by
    norm_num [createPaymentIntent, quantityInvalid, availableCount, MAX_SUPPLY,
      wStore0, wSess, reserveNfts, sessionRefCount, List.countP, List.countP.go]
    simp
  have hval := h wSess hmem (by rfl)
  simpa [wSess] using hval

/-! ## RPC pool failure handling (claim C7) -/

theorem rpcCallGo_attempts_le (today cost : Nat) (oracle : Nat → RpcOutcome) :
    ∀ (fuel attempt : Nat) (apis : List Api),
      (rpcCallGo today cost oracle attempt fuel apis).2.2 ≤ attempt + fuel := by
  intro fuel
  induction fuel with
  | zero =>
    intro attempt apis
    simp [rpcCallGo]
  | succ n ih =>
    intro attempt apis
    simp only [rpcCallGo]
    cases hsel : selectIdx (resetAll today apis) with
    | none =>
      simp
    | some p =>
      obtain ⟨i, a⟩ := p
      cases horacle : oracle attempt with
      | ok r =>
        simp
      | transport =>
        have h := ih (attempt + 1) ((resetAll today apis).set i (applyFail true a))
        simp only []
        exact le_trans h (by omega)
      | rpcErr =>
        have h := ih (attempt + 1) ((resetAll today apis).set i (applyFail false a))
        simp only []
        exact le_trans h (by omega)

theorem foldl_pick_mem (t : List (Nat × Api)) (h : Nat × Api) :
    t.foldl (fun best cur =>
      if remainingCap best.2 < remainingCap cur.2 then cur else best) h ∈ h :: t := by
  induction t generalizing h with
  | nil => simp [List.foldl]
  | cons c t' ih =>
    simp only [List.foldl]
    have hn := ih (if remainingCap h.2 < remainingCap c.2 then c else h)
    rcases List.mem_cons.mp hn with h1 | h1
    · rw [h1]
      by_cases hc : remainingCap h.2 < remainingCap c.2
      · rw [if_pos hc]
        exact List.mem_cons_of_mem _ (List.mem_cons_self _ _)
      · rw [if_neg hc]
        exact List.mem_cons_self _ _
    · exact List.mem_cons_of_mem _ (List.mem_cons_of_mem _ h1)

theorem selectIdx_isCandidate (apis : List Api) (i : Nat) (a : Api)
    (h : selectIdx apis = some (i, a)) : isCandidate a = true := by
  unfold selectIdx at h
  cases hf : apis.enum.filter (fun p => isCandidate p.2) with
  | nil => rw [hf] at h; cases h
  | cons hd tl =>
    rw [hf] at h
    simp only [Option.some.injEq] at h
    have hm := foldl_pick_mem tl hd
    rw [h] at hm
    have hmem : (i, a) ∈ apis.enum.filter (fun p => isCandidate p.2) := by
      rw [hf]
      exact hm
    exact (List.mem_filter.mp hmem).2

/-- C7: the selected endpoint is always enabled, under 90% of its daily
quota and below 3 failures (so an endpoint whose `fail_count` has
reached 3 is never used again before the daily reset); every failed
attempt increments the selected endpoint's `fail_count` and the
transport branch disables it at the third failure; a successful attempt
charges the cost, zeroes `fail_count` and returns the result; a failed
attempt retries with the freshly selected best candidate; the loop
issues at most `apis.length` attempts; and the daily rollover re-enables
an endpoint with zero usage and failures. -/
theorem rpc_pool_failure_handling :
    (∀ (today cost : Nat) (oracle : Nat → RpcOutcome) (apis : List Api),
        (rpcCall today cost oracle apis).2.2 ≤ apis.length) ∧
    (∀ (apis : List Api) (i : Nat) (a : Api), selectIdx apis = some (i, a) →
        a.enabled = true ∧ 10 * a.cuUsedToday < 9 * a.dailyLimit ∧
          a.failCount < 3) ∧
    (∀ (b : Bool) (a : Api), (applyFail b a).failCount = a.failCount + 1 ∧
        (b = true → 3 ≤ a.failCount + 1 → (applyFail b a).enabled = false)) ∧
    (∀ (today cost attempt fuel : Nat) (oracle : Nat → RpcOutcome)
        (apis : List Api) (i : Nat) (a : Api) (r : Nat),
        selectIdx (resetAll today apis) = some (i, a) →
        oracle attempt = .ok r →
        rpcCallGo today cost oracle attempt (fuel + 1) apis =
          ((resetAll today apis).set i (applySuccess cost a), some r,
            attempt + 1) ∧
        (applySuccess cost a).cuUsedToday = a.cuUsedToday + cost ∧
        (applySuccess cost a).failCount = 0) ∧
    (∀ (today cost attempt fuel : Nat) (oracle : Nat → RpcOutcome)
        (apis : List Api) (i : Nat) (a : Api),
        selectIdx (resetAll today apis) = some (i, a) →
        oracle attempt = .transport →
        rpcCallGo today cost oracle attempt (fuel + 1) apis =
          rpcCallGo today cost oracle (attempt + 1) fuel
            ((resetAll today apis).set i (applyFail true a))) ∧
    (∀ (today : Nat) (a : Api), a.lastReset ≠ today →
        (resetApi today a).cuUsedToday = 0 ∧ (resetApi today a).enabled = true ∧
          (resetApi today a).failCount = 0) := by
  refine ⟨?_, ?_, ?_, ?_, ?_, ?_⟩
  · intro today cost oracle apis
    have h := rpcCallGo_attempts_le today cost oracle apis.length 0 apis
    simpa [rpcCall] using h
  · intro apis i a h
    have hc := selectIdx_isCandidate apis i a h
    simp only [isCandidate, Bool.and_eq_true, decide_eq_true_eq] at hc
    exact ⟨hc.1.1, hc.1.2, hc.2⟩
  · intro b a
    constructor
    · simp only [applyFail]
      split_ifs <;> rfl
    · intro hb h3
      simp only [applyFail, hb]
      rw [if_pos]
      exact ⟨trivial, h3⟩
  · intro today cost attempt fuel oracle apis i a r hsel horacle
    refine ⟨?_, rfl, rfl⟩
    simp only [rpcCallGo, hsel, horacle]
  · intro today cost attempt fuel oracle apis i a hsel horacle
    simp only [rpcCallGo, hsel, horacle]
  · intro today a hne
    simp [resetApi, hne]

/-- C7 witness: a two-endpoint pool issues at most two attempts; a
stale endpoint is reset on rollover. -/
theorem rpc_pool_failure_handling_witness :
    (rpcCall 7 10 (fun _ => RpcOutcome.transport)
      [⟨0, 50000, 0, 7, true, 0⟩, ⟨1, 50000, 100, 7, true, 0⟩]).2.2 ≤ 2 ∧
    (resetApi 7 ⟨0, 50000, 49000, 6, false, 3⟩).cuUsedToday = 0 :=
  ⟨rpc_pool_failure_handling.1 7 10 (fun _ => RpcOutcome.transport)
      [⟨0, 50000, 0, 7, true, 0⟩, ⟨1, 50000, 100, 7, true, 0⟩],
   (rpc_pool_failure_handling.2.2.2.2.2 7 ⟨0, 50000, 49000, 6, false, 3⟩
      (by decide)).1⟩

/-! ## Cursor monotonicity of the block scanner (claim C8) -/

theorem scanWrites_mem : ∀ (n : Nat) (c x : ℤ),
    x ∈ scanWrites c n ↔ c < x ∧ x ≤ c + n := by
  intro n
  induction n with
  | zero =>
    intro c x
    simp [scanWrites]
  | succ m ih =>
    intro c x
    simp [scanWrites, ih (c + 1)]
    omega


theorem chain_cons_scanWrites : ∀ (n : Nat) (c : ℤ),
    List.Chain' (· ≤ ·) (c :: scanWrites c n) := by
  intro n
  induction n with
  | zero => intro c; simp [scanWrites]
  | succ m ih =>
    intro c
    show List.Chain' (· ≤ ·) (c :: (c + 1) :: scanWrites (c + 1) m)
    rw [List.chain'_cons]
    exact ⟨by omega, ih (c + 1)⟩

theorem cons_scanWrites_getLast? : ∀ (n : Nat) (c : ℤ),
    (c :: scanWrites c n).getLast? = some (c + n) := by
  intro n
  induction n with
  | zero => intro c; simp [scanWrites]
  | succ m ih =>
    intro c
    show ((c :: (c + 1) :: scanWrites (c + 1) m)).getLast? = some (c + ↑(m + 1))
    rw [List.getLast?_cons_cons, ih (c + 1)]
    congr 1
    omega

theorem scanWrites_getLast?_pos (m : Nat) (c : ℤ) :
    (scanWrites c (m + 1)).getLast? = some (c + (m + 1)) := by
  show ((c + 1) :: scanWrites (c + 1) m).getLast? = _
  rw [cons_scanWrites_getLast? m (c + 1)]
  congr 1
  omega

theorem cycle_chain (hp : Bool) (tip cursor : Option ℤ) :
    List.Chain' (· ≤ ·) (cursor.toList ++ cycleWrites hp tip cursor) := by
  cases hp with
  | false => cases cursor <;> simp [cycleWrites]
  | true =>
    cases tip with
    | none => cases cursor <;> simp [cycleWrites]
    | some h =>
      cases cursor with
      | none =>
        show List.Chain' (· ≤ ·)
          ((h - 100) :: scanWrites (h - 100) (h - (h - 100)).toNat)
        exact chain_cons_scanWrites _ _
      | some c =>
        show List.Chain' (· ≤ ·) (c :: scanWrites c (h - c).toNat)
        exact chain_cons_scanWrites _ _

theorem cycleNext_getLast? (hp : Bool) (tip cursor : Option ℤ) :
    (cycleNext hp tip cursor).toList.getLast? =
      (cursor.toList ++ cycleWrites hp tip cursor).getLast? := by
  cases hws : (cycleWrites hp tip cursor).getLast? with
  | none =>
    have hnil : cycleWrites hp tip cursor = [] := by
      cases hcw : cycleWrites hp tip cursor with
      | nil => rfl
      | cons a l =>
        rw [hcw] at hws
        simp at hws
    simp [cycleNext, hws, hnil]
  | some v =>
    simp [cycleNext, hws, List.getLast?_append]

theorem chain_runCycles : ∀ (inputs : List (Bool × Option ℤ)) (cursor : Option ℤ),
    List.Chain' (· ≤ ·) (cursor.toList ++ (runCycles cursor inputs).2) := by
  intro inputs
  induction inputs with
  | nil =>
    intro cursor
    cases cursor <;> simp [runCycles]
  | cons p rest ih =>
    intro cursor
    obtain ⟨hp, tip⟩ := p
    simp only [runCycles]
    rw [← List.append_assoc, List.chain'_append]
    have hih := ih (cycleNext hp tip cursor)
    rw [List.chain'_append] at hih
    refine ⟨cycle_chain hp tip cursor, hih.2.1, ?_⟩
    intro x hx y hy
    apply hih.2.2 x ?_ y hy
    rw [cycleNext_getLast?]
    exact hx

/-- C8: the stored cursor followed by every value the block scanner
writes to `last_scanned_payment_block` forms a nondecreasing sequence
across any run of cycles; a cycle whose tip is at or below the stored
cursor writes nothing and keeps the cursor; an absent cursor is
initialised with `tip - 100`; the writes of a cycle from cursor `c` to
tip `h` are exactly the scanned heights in `(c, h]` — the cursor is set
to `h` right after block `h` — and such a cycle ends at `h`. -/
theorem cursor_monotonic :
    (∀ (cursor : Option ℤ) (inputs : List (Bool × Option ℤ)),
        List.Chain' (· ≤ ·) (cursor.toList ++ (runCycles cursor inputs).2)) ∧
    (∀ c h : ℤ, h ≤ c → cycleWrites true (some h) (some c) = [] ∧
        cycleNext true (some h) (some c) = some c) ∧
    (∀ h : ℤ, (cycleWrites true (some h) none).head? = some (h - 100)) ∧
    (∀ c h x : ℤ, x ∈ cycleWrites true (some h) (some c) ↔ c < x ∧ x ≤ h) ∧
    (∀ c h : ℤ, c < h → cycleNext true (some h) (some c) = some h) := by
  refine ⟨fun cursor inputs => chain_runCycles inputs cursor, ?_, ?_, ?_, ?_⟩
  · intro c h hle
    have h0 : (h - c).toNat = 0 := by omega
    constructor
    · simp [cycleWrites, h0, scanWrites]
    · simp [cycleNext, cycleWrites, h0, scanWrites]
  · intro h
    simp [cycleWrites]
  · intro c h x
    show x ∈ scanWrites c (h - c).toNat ↔ c < x ∧ x ≤ h
    rw [scanWrites_mem]
    omega
  · intro c h hlt
    have h1 : (h - c).toNat = (h - c - 1).toNat + 1 := by omega
    have h2 : (scanWrites c (h - c).toNat).getLast? = some h := by
      rw [h1, scanWrites_getLast?_pos]
      congr 1
      omega
    simp [cycleNext, cycleWrites, h2]

/-- C8 witness: a tip below the cursor leaves the cursor unchanged; a
tip above moves it to the tip. -/
theorem cursor_monotonic_witness :
    cycleWrites true (some 3) (some 5) = [] ∧
    cycleNext true (some 7) (some 5) = some 7 :=
  ⟨(cursor_monotonic.2.1 5 3 (by decide)).1,
   cursor_monotonic.2.2.2.2 5 7 (by decide)⟩

end ZecDogs
